import Mathlib

/-!
Verification of the mediation layer of the bubble-ai-backend repository:
rate limiting, semantic keyword extraction, query caching with TTL and
capacity eviction, stream broker delivery, provider failover, and the
statistics recorders.  Every definition below is a shallow embedding of a
function of the JavaScript source; timestamps and durations are modelled
as integers (milliseconds) respectively rationals, JavaScript `Map`s as
insertion-ordered association lists, and network calls as explicit
oracle parameters.
-/

namespace BubbleAI

/-! ## JavaScript `Map` as an insertion-ordered association list

A JavaScript `Map` keeps at most one entry per key and preserves
insertion order; `set` updates the entry in place when the key is
present and appends otherwise.  We model it as an association list with
`mapSet` updating the first entry carrying the key (under the unique-key
invariant of `Map`, the only one) and appending when absent. -/

def mapGet {κ α : Type} [DecidableEq κ] (m : List (κ × α)) (k : κ) : Option α :=
  (m.find? (fun p => decide (p.1 = k))).map Prod.snd

def mapHas {κ α : Type} [DecidableEq κ] (m : List (κ × α)) (k : κ) : Bool :=
  m.any (fun p => decide (p.1 = k))

def mapSet {κ α : Type} [DecidableEq κ] : List (κ × α) → κ → α → List (κ × α)
  | [], k, v => [(k, v)]
  | p :: t, k, v => if p.1 = k then (k, v) :: t else p :: mapSet t k v

/-! ## Rate limiter (`checkRateLimit`, src/api/mcp-server.js lines 20-37)

State per client: the list of admitted request timestamps, in
chronological (append) order.  On each call the window is pruned to the
timestamps `t` with `t > now - 600000`, then the request is rejected
when the pruned window already holds `RATE_LIMIT = 100` entries and
admitted (appending `now`) otherwise. -/

structure RateLimitResult where
  allowed : Bool
  remaining : Int
  resetAt : Int
deriving DecidableEq, Repr

def checkRateLimit (now : Int) (window : List Int) :
    RateLimitResult × List Int :=
  let pruned := window.filter (fun t => decide (t > now - 600000))
  if pruned.length ≥ 100 then
    (⟨false, 0, pruned.headI + 600000⟩, pruned)
  else
    (⟨true, 100 - ((pruned.length : Int) + 1), now + 600000⟩, pruned ++ [now])

/-! ## Semantic keyword extraction (`analyzeSemantics`, src/api/mcp-server.js line 41)

The source computes
`query.toLowerCase().split(/\\s+/).filter(w => w.length > 2)`.
The regular-expression literal contains a double backslash, so the
pattern is an escaped backslash followed by `s+`: it matches one literal
backslash character followed by one or more letters `s`, not whitespace.
`splitBackslashS` performs exactly that split on the character list. -/

/-- One split step per unit of fuel; every step consumes at least one
character, so any fuel exceeding the list length makes the fuel-exhausted
first branch unreachable (it exists only to keep the recursion
structural, hence kernel-reducible). -/
def splitBackslashSFuel : Nat → List Char → List Char → List (List Char)
  | 0, l, acc => [acc.reverse ++ l]
  | _ + 1, [], acc => [acc.reverse]
  | fuel + 1, '\\' :: 's' :: rest, acc =>
      acc.reverse ::
        splitBackslashSFuel fuel (rest.dropWhile (fun c => decide (c = 's'))) []
  | fuel + 1, c :: rest, acc => splitBackslashSFuel fuel rest (c :: acc)

def splitBackslashS (l : List Char) : List (List Char) :=
  splitBackslashSFuel (l.length + 1) l []

/-- `query.toLowerCase()` on the character list (ASCII lowering, which is
what the queries at issue contain). -/
def toLowerChars (query : String) : List Char :=
  query.data.map Char.toLower

/-- `String.prototype.trim`: strip leading and trailing whitespace. -/
def trimChars (cs : List Char) : List Char :=
  ((cs.dropWhile Char.isWhitespace).reverse.dropWhile Char.isWhitespace).reverse

/-- `query.toLowerCase().trim()` — the normalized cache key of
`searchQuery`. -/
def normalizeKey (query : String) : String :=
  String.mk (trimChars (toLowerChars query))

/-- The `keywords` component of `analyzeSemantics`: lowercase the query,
split it with the (literal-backslash) pattern above, and keep the tokens
of length greater than 2. -/
def analyzeSemanticsKeywords (query : String) : List String :=
  ((splitBackslashS (toLowerChars query)).map (fun cs => String.mk cs)).filter
    (fun w => decide (w.length > 2))

/-! ## Query cache and live search (`searchQuery`, src/api/mcp-server.js lines 73-150)

The cache maps the normalized key `query.toLowerCase().trim()` to an
entry carrying the original query, the scored results, the creation
timestamp, the semantic keywords, the client id and a hit counter.  The
upstream `fetch` of the search API is modelled by an `Upstream` oracle
(a thrown error, an unparsable body or a `success:false` body all
surface as the `fail` case), and `new URL(r.url).hostname` by a
`hostOf` oracle returning `none` when URL parsing would throw. -/

def CACHE_TTL : Int := 300000

structure ResultItem where
  id : String
  title : String
  url : String
  snippet : String
  relevance : Rat
  domain : String
deriving DecidableEq, Repr

structure CacheEntry where
  query : String
  results : List ResultItem
  timestamp : Int
  keywords : List String
  clientId : String
  hitCount : Nat
deriving DecidableEq, Repr

structure ServerState where
  queryCache : List (String × CacheEntry)
  semanticIndex : List (String × List String)
deriving DecidableEq, Repr

structure RawResult where
  title : String
  url : String
  snippet : String
deriving DecidableEq, Repr

inductive Upstream where
  | fail (msg : String)
  | ok (results : List RawResult)
deriving DecidableEq, Repr

structure SearchResult where
  query : String
  results : List ResultItem
  source : String
  count : Option Nat
  error : Option String
  cacheAge : Option Int
  timestamp : Int
deriving DecidableEq, Repr

/-- First entry with minimal `timestamp` — the entry
`Array.from(queryCache.entries()).sort((a,b) => a[1].timestamp - b[1].timestamp)[0]`
selected by the cleanup branch (JavaScript `sort` is stable, so ties keep
insertion order and the first minimal entry is chosen). -/
def olderOf {κ : Type} (acc : Option (κ × CacheEntry)) (p : κ × CacheEntry) :
    Option (κ × CacheEntry) :=
  match acc with
  | none => some p
  | some q => if p.2.timestamp < q.2.timestamp then some p else some q

def oldestEntry {κ : Type} (m : List (κ × CacheEntry)) : Option (κ × CacheEntry) :=
  m.foldl olderOf none

/-- The cleanup branch of `searchQuery` (lines 126-130): delete the entry
whose key is the oldest entry's key. -/
def cacheEvictOldest {κ : Type} [DecidableEq κ] (m : List (κ × CacheEntry)) :
    List (κ × CacheEntry) :=
  match oldestEntry m with
  | none => m
  | some p => m.eraseP (fun q => decide (q.1 = p.1))

/-- `queryCache.set(cacheKey, cacheEntry)` followed by the size-1000
cleanup check of `searchQuery`. -/
def cacheStore {κ : Type} [DecidableEq κ] (m : List (κ × CacheEntry)) (k : κ)
    (e : CacheEntry) : List (κ × CacheEntry) :=
  let m1 := mapSet m k e
  if m1.length > 1000 then cacheEvictOldest m1 else m1

/-- The `data.results.map((r, idx) => ...)` step: ids are
`cacheKey + "_" + idx`, relevance is `(20 - idx) / 20`, and the domain is
the URL's hostname; a URL that fails to parse makes the whole call throw
into the catch branch, hence the `Option`. -/
def buildResults (cacheKey : String) (hostOf : String → Option String)
    (raws : List RawResult) : Option (List ResultItem) :=
  raws.enum.mapM (fun p =>
    (hostOf p.2.url).map (fun h =>
      ⟨cacheKey ++ "_" ++ toString p.1, p.2.title, p.2.url, p.2.snippet,
        ((20 : Rat) - (p.1 : Rat)) / 20, h⟩))

/-- The semantic-index update loop (lines 118-123): for each keyword,
create an empty bucket when absent, then push the cache key. -/
def indexKeywords (si : List (String × List String)) (kws : List String)
    (cacheKey : String) : List (String × List String) :=
  kws.foldl
    (fun acc kw =>
      match mapGet acc kw with
      | none => mapSet acc kw [cacheKey]
      | some l => mapSet acc kw (l ++ [cacheKey]))
    si

/-- `searchQuery(query, clientId)` at time `now`: cache lookup with TTL
check, then the live path — on upstream success store the entry, update
the semantic index and run the capacity cleanup; on any thrown error
return the `source:'error'` result leaving all state untouched. -/
def searchQuery (query clientId : String) (now : Int) (up : Upstream)
    (hostOf : String → Option String) (st : ServerState) :
    SearchResult × ServerState :=
  let cacheKey := normalizeKey query
  let kws := analyzeSemanticsKeywords query
  let live : SearchResult × ServerState :=
    match up with
    | .fail msg => (⟨query, [], "error", none, some msg, none, now⟩, st)
    | .ok raws =>
        match buildResults cacheKey hostOf raws with
        | none => (⟨query, [], "error", none, some "Invalid URL", none, now⟩, st)
        | some results =>
            let entry : CacheEntry := ⟨query, results, now, kws, clientId, 0⟩
            (⟨query, results, "live", some results.length, none, none, now⟩,
              ⟨cacheStore st.queryCache cacheKey entry,
                indexKeywords st.semanticIndex kws cacheKey⟩)
  match mapGet st.queryCache cacheKey with
  | some cached =>
      if now - cached.timestamp < CACHE_TTL then
        (⟨cached.query, cached.results, "cache", none, none,
            some (now - cached.timestamp), cached.timestamp⟩, st)
      else live
  | none => live

/-- The cache-lookup guard of `searchQuery`: true exactly when the
normalized key holds an entry younger than the TTL, i.e. when the cached
branch is taken. -/
def isFreshHit (st : ServerState) (key : String) (now : Int) : Bool :=
  match mapGet st.queryCache key with
  | some e => decide (now - e.timestamp < CACHE_TTL)
  | none => false

/-! ## Stream broker (src/unnamed/part_005)

A stream session holds its buffered chunks, a status string (the source
uses the strings `'active'` and `'closed'`), and its listeners in
subscription order.  Listener callbacks are modelled by numeric listener
ids; `streamChunk` returns, besides the updated registry and the boolean
result, the list of `(listener, chunk)` notifications it issues, in
subscription order.  `handleSSE` returns the chunks replayed to the new
subscriber before it is registered. -/

structure Chunk where
  ctype : String
  data : String
  timestamp : Int
deriving DecidableEq, Repr

structure StreamSt where
  clientId : String
  query : String
  created : Int
  chunks : List Chunk
  status : String
  listeners : List Nat
  closedAt : Option Int
  closeReason : Option String
deriving DecidableEq, Repr

def createStream (streams : List (String × StreamSt))
    (streamId clientId query : String) (now : Int) : List (String × StreamSt) :=
  mapSet streams streamId ⟨clientId, query, now, [], "active", [], none, none⟩

/-- `streamChunk(streamId, data, chunkType)`: `false` when the stream id
is absent from the registry; otherwise append the chunk, notify every
current listener in subscription order, and return `true`.  The source
never consults `status` here. -/
def streamChunk (streams : List (String × StreamSt)) (streamId : String)
    (d : String) (chunkType : String) (now : Int) :
    List (String × StreamSt) × Bool × List (Nat × Chunk) :=
  match mapGet streams streamId with
  | none => (streams, false, [])
  | some s =>
      let c : Chunk := ⟨chunkType, d, now⟩
      (mapSet streams streamId { s with chunks := s.chunks ++ [c] }, true,
        s.listeners.map (fun l => (l, c)))

/-- `closeStream(streamId, reason)`: mark the stream closed (the delayed
deletion of the entry after the five-minute grace period is a timer and
is not part of this call's effect). -/
def closeStream (streams : List (String × StreamSt)) (streamId reason : String)
    (now : Int) : List (String × StreamSt) × Bool :=
  match mapGet streams streamId with
  | none => (streams, false)
  | some s =>
      (mapSet streams streamId
          { s with
              status := "closed"
              closedAt := some now
              closeReason := some reason },
        true)

def subscribeStream (streams : List (String × StreamSt)) (streamId : String)
    (lid : Nat) : List (String × StreamSt) × Bool :=
  match mapGet streams streamId with
  | none => (streams, false)
  | some s =>
      (mapSet streams streamId { s with listeners := s.listeners ++ [lid] }, true)

/-- The subscription part of `handleSSE`: replay all buffered chunks to
the new subscriber, then register its listener. -/
def handleSSE (streams : List (String × StreamSt)) (streamId : String)
    (lid : Nat) : List (String × StreamSt) × List Chunk :=
  match mapGet streams streamId with
  | none => (streams, [])
  | some s => ((subscribeStream streams streamId lid).1, s.chunks)

/-- A sequence of `streamChunk` emissions on one stream; the second
component accumulates every notification issued, in emission order.
Each element of `ds` is `(data, chunkType, now)`. -/
def emitAll : List (String × StreamSt) → String → List (String × String × Int) →
    List (String × StreamSt) × List (Nat × Chunk)
  | streams, _, [] => (streams, [])
  | streams, sid, d :: ds =>
      let r := streamChunk streams sid d.1 d.2.1 d.2.2
      let rest := emitAll r.1 sid ds
      (rest.1, r.2.2 ++ rest.2)

/-! ## Provider orchestrator (`MCPOrchestrator`, src/unnamed/part_004)

The registry holds `webSearchMCP` (priority 1) and `bubbleSearch`
(priority 2).  `executeSearch` refreshes the requested provider's health
(`checkHealth`) and the outcome of that refresh is the `healthy`
parameter; the two possible `/search` POSTs are the `primaryCall` and
`altCall` oracles.  Besides the structured result, the embedding returns
the list of providers whose `/search` endpoint was actually called, in
call order. -/

inductive CallResult where
  | ok (data : String)
  | err (msg : String)
deriving DecidableEq, Repr

structure OrchResult where
  success : Bool
  server : Option String
  results : Option String
  failover : Bool
  primaryServerFailed : Option String
  error : Option String
deriving DecidableEq, Repr

def registeredServers : List String := ["webSearchMCP", "bubbleSearch"]

/-- `primaryServer === 'webSearchMCP' ? 'bubbleSearch' : 'webSearchMCP'`. -/
def alternativeOf (primaryServer : String) : String :=
  if primaryServer = "webSearchMCP" then "bubbleSearch" else "webSearchMCP"

/-- `fallbackSearch(query, primaryServer)`: one call to the alternative
provider; on success a `failover: true` result naming the alternative,
on failure the terminal `success: false` result. -/
def fallbackSearch (primaryServer : String) (altCall : CallResult) :
    OrchResult × List String :=
  let alternativeServer := alternativeOf primaryServer
  match altCall with
  | .ok d =>
      (⟨true, some alternativeServer, some d, true, some primaryServer, none⟩,
        [alternativeServer])
  | .err _ =>
      (⟨false, none, none, false, none, some "All search servers unavailable"⟩,
        [alternativeServer])

/-- `executeSearch(query, options)` with the requested `server`: an
unknown server name throws into the catch branch, an unhealthy refresh
or a failed direct call also divert to `fallbackSearch`; a healthy
direct call returns the primary result with no failover flag. -/
def executeSearch (server : String) (healthy : Bool)
    (primaryCall altCall : CallResult) : OrchResult × List String :=
  if server ∈ registeredServers then
    if healthy then
      match primaryCall with
      | .ok d => (⟨true, some server, some d, false, none, none⟩, [server])
      | .err _ =>
          let fb := fallbackSearch server altCall
          (fb.1, server :: fb.2)
    else fallbackSearch server altCall
  else fallbackSearch server altCall

/-! ## Statistics recorders

Two distinct recorders exist in the repository: `recordQuery`
(src/api/mcp-analytics.js, lines 17-36) updates aggregate counters, a
running mean and a maximum of the duration, and hourly buckets — it
retains no individual query records; `StatsTracker.recordSearch`
(src/api/index.js) retains the last 50 individual query records in a
ring buffer but stores raw durations (mean computed at read time) and
tracks no maximum. -/

structure HourBucket where
  queries : Nat
  avgTime : Rat
  cacheHits : Nat
deriving DecidableEq, Repr

structure Analytics where
  queriesTotal : Nat
  queriesCached : Nat
  queriesLive : Nat
  queriesFailed : Nat
  searchesTotal : Nat
  searchesAvgTime : Rat
  searchesMaxTime : Rat
  hourly : List (String × HourBucket)
deriving DecidableEq, Repr

/-- The hourly-bucket update of `recordQuery`: create the bucket when
absent, then increment its query counter. -/
def hourlyBump (h : List (String × HourBucket)) (hour : String) :
    List (String × HourBucket) :=
  let h1 := if mapHas h hour then h else mapSet h hour ⟨0, 0, 0⟩
  match mapGet h1 hour with
  | some b => mapSet h1 hour { b with queries := b.queries + 1 }
  | none => h1

/-- `recordQuery(query, source, duration, success)` of
src/api/mcp-analytics.js (the `query` argument is not used by the
body). -/
def recordQuery (source : String) (duration : Rat) (success : Bool)
    (hour : String) (a : Analytics) : Analytics :=
  let a1 := { a with queriesTotal := a.queriesTotal + 1 }
  let a2 :=
    if source = "cache" then { a1 with queriesCached := a1.queriesCached + 1 }
    else if source = "live" then { a1 with queriesLive := a1.queriesLive + 1 }
    else if success = false then { a1 with queriesFailed := a1.queriesFailed + 1 }
    else a1
  let a3 := { a2 with hourly := hourlyBump a2.hourly hour }
  let total := a3.searchesTotal + 1
  { a3 with
      searchesTotal := total,
      searchesAvgTime :=
        (a3.searchesAvgTime * ((total : Rat) - 1) + duration) / (total : Rat),
      searchesMaxTime :=
        if duration > a3.searchesMaxTime then duration else a3.searchesMaxTime }

structure QueryRecord where
  query : String
  success : Bool
  duration : Rat
  server : String
deriving DecidableEq, Repr

/-- The individual per-query records retained by the analytics state of
src/api/mcp-analytics.js.  The module's `analytics` object holds only the
aggregate counters embedded in `Analytics` above (`queries`, `searches`,
`cache`, `rateLimit`, `uptime` and the `hourly` buckets); no field of it
stores individual query records, so the retained collection is empty in
every state. -/
def Analytics.recentRecords (_ : Analytics) : List QueryRecord := []

structure SearchStats where
  totalSearches : Nat
  successfulSearches : Nat
  failedSearches : Nat
  totalQueryCount : Nat
  searchDuration : List Rat
  queries : List QueryRecord
deriving DecidableEq, Repr

/-- `StatsTracker.recordSearch(query, success, duration, server)` of
src/api/index.js: increment the counters, push the raw duration, append
the query record, and drop the oldest record when more than 50 are
held. -/
def recordSearch (query : String) (success : Bool) (duration : Rat)
    (server : String) (st : SearchStats) : SearchStats :=
  let st1 := { st with totalSearches := st.totalSearches + 1 }
  let st2 :=
    if success then { st1 with successfulSearches := st1.successfulSearches + 1 }
    else { st1 with failedSearches := st1.failedSearches + 1 }
  let st3 :=
    { st2 with
        totalQueryCount := st2.totalQueryCount + (query.splitOn " ").length,
        searchDuration := st2.searchDuration ++ [duration] }
  let q1 := st3.queries ++ [⟨query, success, duration, server⟩]
  { st3 with queries := if q1.length > 50 then q1.tail else q1 }

def initialSearchStats : SearchStats := ⟨0, 0, 0, 0, [], []⟩

def analyticsInit : Analytics := ⟨0, 0, 0, 0, 0, 0, 0, []⟩

/-- A registry holding one stream that was created and then closed: the
entry is still present (deletion only happens five minutes later) with
status `'closed'`. -/
def closedStreamsEx : List (String × StreamSt) :=
  (closeStream (createStream [] "s1" "client1" "q" 0) "s1" "complete" 10).1

/-- A concrete cached entry stored at time 0 under normalized key "q". -/
def cacheEntryEx : CacheEntry := ⟨"q", [], 0, [], "c", 0⟩

def serverStateEx : ServerState := ⟨[("q", cacheEntryEx)], []⟩

/-- A registry with one freshly created stream carrying two buffered
chunks, used to witness replay-then-live delivery. -/
def bufferedStreamsEx : List (String × StreamSt) :=
  (streamChunk (streamChunk (createStream [] "s" "c" "q" 0) "s" "d0" "data" 1).1
    "s" "d1" "data" 2).1

def natEntry (i : Nat) : CacheEntry := ⟨"q", [], (i : Int), [], "c", 0⟩

/-- A full cache of 1000 entries under keys 0..999, stored at times
0..999, used to witness capacity eviction. -/
def bigCacheEx : List (Nat × CacheEntry) :=
  (List.range 1000).map (fun i => (i, natEntry i))

/-! ## Library lemmas about the `Map` embedding -/

theorem mapGet_mapSet_self {κ α : Type} [DecidableEq κ]
    (m : List (κ × α)) (k : κ) (v : α) : mapGet (mapSet m k v) k = some v := by
  induction m with
  | nil => simp [mapGet, mapSet, List.find?]
  | cons p t ih =>
      by_cases hp : p.1 = k
      · simp [mapSet, hp, mapGet, List.find?]
      · simpa [mapSet, hp, mapGet, List.find?_cons] using ih

theorem mapGet_mapSet_ne {κ α : Type} [DecidableEq κ]
    (m : List (κ × α)) (k k' : κ) (v : α) (hne : k' ≠ k) :
    mapGet (mapSet m k v) k' = mapGet m k' := by
  have hk : ¬ (k = k') := fun h => hne h.symm
  induction m with
  | nil => simp [mapGet, mapSet, List.find?, hk]
  | cons p t ih =>
      by_cases hp : p.1 = k
      · have hp' : ¬ p.1 = k' := fun h => hne (h.symm.trans hp)
        simp [mapSet, hp, mapGet, List.find?_cons, hp', hk]
      · have hms : mapSet (p :: t) k v = p :: mapSet t k v := by
          simp [mapSet, hp]
        rw [hms]
        by_cases hq : p.1 = k'
        · simp [mapGet, List.find?_cons, hq]
        · simpa [mapGet, List.find?_cons, hq] using ih

theorem length_mapSet {κ α : Type} [DecidableEq κ]
    (m : List (κ × α)) (k : κ) (v : α) :
    (mapSet m k v).length = if mapHas m k then m.length else m.length + 1 := by
  induction m with
  | nil => simp [mapSet, mapHas]
  | cons p t ih =>
      by_cases hp : p.1 = k
      · simp [mapSet, hp, mapHas]
      · have hms : mapSet (p :: t) k v = p :: mapSet t k v := by
          simp [mapSet, hp]
        have hh : mapHas (p :: t) k = mapHas t k := by simp [mapHas, hp]
        rw [hms, hh, List.length_cons, ih]
        by_cases ht : mapHas t k <;> simp [ht]

/-! ## Claim theorems -/

/-- C1: the claim states that keyword extraction lowercases the query,
splits it on whitespace and discards tokens of length at most 2, so that
"python machine learning" yields the keywords "python", "machine",
"learning".  The code evaluated at that very input instead yields the
single keyword "python machine learning": the regular-expression literal
at src/api/mcp-server.js line 41 is written with a double backslash, so
it matches a literal backslash followed by letters `s` rather than
whitespace and the query is never split. -/
theorem C1_keywords_failing_input :
    analyzeSemanticsKeywords "python machine learning" =
      ["python machine learning"] ∧
    analyzeSemanticsKeywords "python machine learning" ≠
      ["python", "machine", "learning"] := by
  exact ⟨by decide, by decide⟩

/-- C2: each admission call first prunes the client's window to the
timestamps inside the rolling 600000 ms interval; when the pruned window
holds 99 timestamps the call (the 100th in-window request) is admitted,
appending `now` and returning `remaining = 100 -` the new window length
`= 0`; when it holds 100 (the 101st request) the call is rejected with
`allowed = false`, `remaining = 0` and `resetAt` equal to the oldest
in-window timestamp plus 600000. -/
theorem C2_rate_limit_window (now : Int) (window : List Int) :
    ((checkRateLimit now window).2 =
      if (window.filter (fun t => decide (t > now - 600000))).length ≥ 100 then
        window.filter (fun t => decide (t > now - 600000))
      else window.filter (fun t => decide (t > now - 600000)) ++ [now]) ∧
    ((window.filter (fun t => decide (t > now - 600000))).length = 99 →
      (checkRateLimit now window).1 = ⟨true, 0, now + 600000⟩ ∧
      (checkRateLimit now window).2 =
        window.filter (fun t => decide (t > now - 600000)) ++ [now]) ∧
    ((window.filter (fun t => decide (t > now - 600000))).length = 100 →
      (checkRateLimit now window).1 =
        ⟨false, 0,
          (window.filter (fun t => decide (t > now - 600000))).headI + 600000⟩ ∧
      (checkRateLimit now window).2 =
        window.filter (fun t => decide (t > now - 600000))) := by
  refine ⟨?_, ?_, ?_⟩
  · by_cases h : (window.filter (fun t => decide (t > now - 600000))).length ≥ 100 <;>
      simp [checkRateLimit, h]
  · intro h99
    have h : ¬ ((window.filter (fun t => decide (t > now - 600000))).length ≥ 100) := by
      omega
    simp [checkRateLimit, h, h99]
  · intro h100
    have h : (window.filter (fun t => decide (t > now - 600000))).length ≥ 100 := by
      omega
    simp [checkRateLimit, h]

/-- Witness for C2 at `now = 600000`: a window of 99 in-window
timestamps admits the call with zero remaining quota, a window of 100
in-window timestamps rejects it. -/
theorem C2_rate_limit_window_witness :
    ((List.replicate 99 (600000 : Int)).filter
        (fun t => decide (t > (600000 : Int) - 600000))).length = 99 ∧
    (checkRateLimit 600000 (List.replicate 99 600000)).1 =
      ⟨true, 0, 600000 + 600000⟩ ∧
    ((List.replicate 100 (600000 : Int)).filter
        (fun t => decide (t > (600000 : Int) - 600000))).length = 100 ∧
    (checkRateLimit 600000 (List.replicate 100 600000)).1.allowed = false := by
  refine ⟨by decide, ?_, by decide, ?_⟩
  · exact ((C2_rate_limit_window 600000 (List.replicate 99 600000)).2.1
      (by decide)).1
  · have h := ((C2_rate_limit_window 600000 (List.replicate 100 600000)).2.2
      (by decide)).1
    rw [h]

/-- C10: a denied admission call appends no timestamp — its only state
effect is pruning the entries that left the 10-minute window — and a
later call, once enough entries have aged out of the window, is admitted
again. -/
theorem C10_denied_consumes_no_quota (now : Int) (window : List Int)
    (h : (window.filter (fun t => decide (t > now - 600000))).length ≥ 100) :
    (checkRateLimit now window).1.allowed = false ∧
    (checkRateLimit now window).2 =
      window.filter (fun t => decide (t > now - 600000)) ∧
    (checkRateLimit now window).2.Sublist window ∧
    (∀ now2 : Int,
      ((checkRateLimit now window).2.filter
          (fun t => decide (t > now2 - 600000))).length < 100 →
      (checkRateLimit now2 (checkRateLimit now window).2).1.allowed = true) := by
  have hst : (checkRateLimit now window).2 =
      window.filter (fun t => decide (t > now - 600000)) := by
    simp [checkRateLimit, h]
  refine ⟨by simp [checkRateLimit, h], hst, hst ▸ List.filter_sublist _, ?_⟩
  intro now2 hlt
  rw [hst] at hlt ⊢
  simp only [checkRateLimit]
  split
  · next hc => exact absurd hlt (by omega)
  · rfl

/-- Witness for C10: with 100 in-window timestamps at `now = 600000` the
call is denied and leaves exactly the pruned window; at `now = 2000000`
every old timestamp has aged out and the next call is admitted. -/
theorem C10_denied_consumes_no_quota_witness :
    (checkRateLimit 600000 (List.replicate 100 (600000 : Int))).1.allowed = false ∧
    (checkRateLimit 2000000
      (checkRateLimit 600000 (List.replicate 100 (600000 : Int))).2).1.allowed =
        true := by
  have h := C10_denied_consumes_no_quota 600000 (List.replicate 100 600000)
    (by decide)
  exact ⟨h.1, h.2.2.2 2000000 (by decide)⟩

/-- C5 counterexample: the claim states that emitting on a stream whose
status is closed returns false.  After closing, the stream entry is
still registered with status `'closed'`, and `streamChunk` — which never
consults the status — appends the chunk and returns true. -/
theorem C5_emit_closed_counterexample :
    (mapGet closedStreamsEx "s1").map StreamSt.status = some "closed" ∧
    (streamChunk closedStreamsEx "s1" "payload" "data" 20).2.1 = true := by
  exact ⟨by decide, by decide⟩

/-- C5 (amended): `streamChunk` returns false — touching nothing — exactly
when no stream with the id exists; on any existing stream, regardless of
status, it appends the chunk, notifies every current listener in
subscription order, and returns true. -/
theorem C5_emit_amended (streams : List (String × StreamSt))
    (streamId d chunkType : String) (now : Int) :
    (mapGet streams streamId = none →
      streamChunk streams streamId d chunkType now = (streams, false, [])) ∧
    (∀ s, mapGet streams streamId = some s →
      (streamChunk streams streamId d chunkType now).2.1 = true ∧
      (streamChunk streams streamId d chunkType now).2.2 =
        s.listeners.map (fun l => (l, ⟨chunkType, d, now⟩)) ∧
      (streamChunk streams streamId d chunkType now).1 =
        mapSet streams streamId
          { s with chunks := s.chunks ++ [⟨chunkType, d, now⟩] }) := by
  constructor
  · intro hnone
    simp [streamChunk, hnone]
  · intro s hs
    simp [streamChunk, hs]

/-- Witness for C5 (amended): emitting on an empty registry returns
false and changes nothing; emitting on the closed-but-registered stream
appends the chunk and returns true. -/
theorem C5_emit_amended_witness :
    streamChunk [] "s1" "payload" "data" 20 = ([], false, []) ∧
    (streamChunk closedStreamsEx "s1" "payload" "data" 20).2.1 = true := by
  refine ⟨(C5_emit_amended [] "s1" "payload" "data" 20).1 (by decide), ?_⟩
  let s : StreamSt :=
    ⟨"client1", "q", 0, [], "closed", [], some 10, some "complete"⟩
  exact ((C5_emit_amended closedStreamsEx "s1" "payload" "data" 20).2 s
    (by decide)).1

/-- C7: with the requested priority-1 provider `webSearchMCP` either
unhealthy after the health refresh or failing its direct call,
`executeSearch` calls the priority-2 alternate `bubbleSearch` exactly
once; when that call succeeds the result carries `failover = true` and
names `bubbleSearch` as the serving provider, and when it also fails the
result is terminal with `success = false` and no further call is made. -/
theorem C7_failover (healthy : Bool) (primaryCall altCall : CallResult)
    (h : healthy = false ∨ ∃ m, primaryCall = CallResult.err m) :
    (executeSearch "webSearchMCP" healthy primaryCall altCall).2.count
        "bubbleSearch" = 1 ∧
    (∀ d, altCall = CallResult.ok d →
      (executeSearch "webSearchMCP" healthy primaryCall altCall).1 =
        ⟨true, some "bubbleSearch", some d, true, some "webSearchMCP", none⟩) ∧
    (∀ m, altCall = CallResult.err m →
      (executeSearch "webSearchMCP" healthy primaryCall altCall).1 =
        ⟨false, none, none, false, none,
          some "All search servers unavailable"⟩) := by
  rcases h with h | ⟨m, hm⟩
  · subst h
    cases altCall <;>
      simp [executeSearch, registeredServers, fallbackSearch, alternativeOf,
        List.count, List.countP] <;> decide
  · subst hm
    cases healthy <;> cases altCall <;>
      simp [executeSearch, registeredServers, fallbackSearch, alternativeOf,
        List.count, List.countP] <;> decide

/-- Witness for C7: an unhealthy primary with a succeeding alternate
yields exactly one alternate call and a `failover = true` result naming
`bubbleSearch`; an unhealthy primary with a failing alternate yields a
terminal `success = false` result. -/
theorem C7_failover_witness :
    (executeSearch "webSearchMCP" false (CallResult.ok "x")
        (CallResult.ok "y")).2.count "bubbleSearch" = 1 ∧
    (executeSearch "webSearchMCP" false (CallResult.ok "x")
        (CallResult.ok "y")).1 =
      ⟨true, some "bubbleSearch", some "y", true, some "webSearchMCP", none⟩ ∧
    (executeSearch "webSearchMCP" false (CallResult.ok "x")
        (CallResult.err "boom")).1.success = false := by
  have h1 := C7_failover false (CallResult.ok "x") (CallResult.ok "y")
    (Or.inl rfl)
  have h2 := C7_failover false (CallResult.ok "x") (CallResult.err "boom")
    (Or.inl rfl)
  refine ⟨h1.1, h1.2.1 "y" rfl, ?_⟩
  rw [h2.2.2 "boom" rfl]

theorem recordSearch_queries_eq (query : String) (success : Bool)
    (duration : Rat) (server : String) (st : SearchStats) :
    (recordSearch query success duration server st).queries =
      (if (st.queries ++
            [({ query := query, success := success, duration := duration,
                server := server } : QueryRecord)]).length > 50
        then (st.queries ++
            [({ query := query, success := success, duration := duration,
                server := server } : QueryRecord)]).tail
        else st.queries ++
            [({ query := query, success := success, duration := duration,
                server := server } : QueryRecord)]) := by
  cases success <;> simp [recordSearch]

theorem recordSearch_queries_le (query : String) (success : Bool)
    (duration : Rat) (server : String) (st : SearchStats)
    (h : st.queries.length ≤ 50) :
    (recordSearch query success duration server st).queries.length ≤ 50 := by
  rw [recordSearch_queries_eq]
  by_cases hc : (st.queries ++
      [({ query := query, success := success, duration := duration,
          server := server } : QueryRecord)]).length > 50
  · rw [if_pos hc]
    simp only [List.length_tail, List.length_append, List.length_cons,
      List.length_nil] at hc ⊢
    omega
  · rw [if_neg hc]
    simp only [List.length_append, List.length_cons, List.length_nil] at hc ⊢
    omega

theorem recordSearch_fold_le (calls : List (String × Bool × Rat × String))
    (st : SearchStats) (h : st.queries.length ≤ 50) :
    ((calls.foldl
        (fun acc c => recordSearch c.1 c.2.1 c.2.2.1 c.2.2.2 acc) st).queries.length
      ≤ 50) := by
  induction calls generalizing st with
  | nil => simpa using h
  | cons c cs ih =>
      exact ih _ (recordSearch_queries_le c.1 c.2.1 c.2.2.1 c.2.2.2 st h)

/-- C8 counterexample: the claim states that every call to the stats
recorder appends the individual query record to a ring buffer.  The
analytics recorder `recordQuery` of src/api/mcp-analytics.js — the cited
symbol — writes only aggregate counters: after a call on the initial
state the retained record collection is still empty, not a one-element
buffer holding the record. -/
theorem C8_no_ring_buffer_counterexample :
    (recordQuery "live" 100 true "2026-10-11T19" analyticsInit).queriesTotal = 1 ∧
    (recordQuery "live" 100 true "2026-10-11T19" analyticsInit).recentRecords
      = [] ∧
    ¬ ((recordQuery "live" 100 true
        "2026-10-11T19" analyticsInit).recentRecords.length = 1) := by
  exact ⟨by decide, rfl, by simp [Analytics.recentRecords]⟩

/-- C8 (amended): the repository splits the spec's recorder across two
functions.  `recordQuery` (mcp-analytics.js) increments the query and
search totals, updates the running mean and the maximum duration, and
retains no individual query records; `StatsTracker.recordSearch`
(index.js) increments its totals and appends the individual query record
to a buffer from which the oldest record is dropped once more than 50
are held, so the buffer never exceeds 50 records over any call
sequence from the initial state. -/
theorem C8_stats_recorders_amended :
    (∀ (source : String) (duration : Rat) (success : Bool) (hour : String)
        (a : Analytics),
      (recordQuery source duration success hour a).queriesTotal =
        a.queriesTotal + 1 ∧
      (recordQuery source duration success hour a).searchesTotal =
        a.searchesTotal + 1 ∧
      (recordQuery source duration success hour a).searchesAvgTime =
        (a.searchesAvgTime * (((a.searchesTotal + 1 : Nat) : Rat) - 1) + duration) /
          ((a.searchesTotal + 1 : Nat) : Rat) ∧
      (recordQuery source duration success hour a).searchesMaxTime =
        (if duration > a.searchesMaxTime then duration else a.searchesMaxTime) ∧
      (recordQuery source duration success hour a).recentRecords = []) ∧
    (∀ (query : String) (success : Bool) (duration : Rat) (server : String)
        (st : SearchStats),
      (recordSearch query success duration server st).totalSearches =
        st.totalSearches + 1 ∧
      (recordSearch query success duration server st).queries =
        (if (st.queries ++
              [({ query := query, success := success, duration := duration,
                  server := server } : QueryRecord)]).length > 50
          then (st.queries ++
              [({ query := query, success := success, duration := duration,
                  server := server } : QueryRecord)]).tail
          else st.queries ++
              [({ query := query, success := success, duration := duration,
                  server := server } : QueryRecord)])) ∧
    (∀ calls : List (String × Bool × Rat × String),
      ((calls.foldl (fun acc c => recordSearch c.1 c.2.1 c.2.2.1 c.2.2.2 acc)
          initialSearchStats).queries.length ≤ 50)) := by
  refine ⟨?_, ?_, ?_⟩
  · intro source duration success hour a
    simp only [recordQuery, Analytics.recentRecords]
    split_ifs <;> simp
  · intro query success duration server st
    refine ⟨?_, recordSearch_queries_eq query success duration server st⟩
    cases success <;> simp [recordSearch]
  · intro calls
    exact recordSearch_fold_le calls initialSearchStats
      (by simp [initialSearchStats])

/-- C3: a lookup of a stored entry at time `now` is a cache hit — the
stored results are returned tagged `source = "cache"` with the state
untouched — exactly when `now` minus the entry's creation time is below
300000 ms; at or beyond the TTL the lookup is not served from cache (the
live path runs), yet the expired entry is not removed: when the upstream
fails the state is unchanged and the entry still present, and on upstream
success only the overwriting store (followed by the capacity check)
touches the cache. -/
theorem C3_cache_ttl (query clientId : String) (now : Int) (up : Upstream)
    (hostOf : String → Option String) (st : ServerState) (e : CacheEntry)
    (he : mapGet st.queryCache (normalizeKey query) = some e) :
    (now - e.timestamp < 300000 →
      (searchQuery query clientId now up hostOf st).1.source = "cache" ∧
      (searchQuery query clientId now up hostOf st).1.results = e.results ∧
      (searchQuery query clientId now up hostOf st).1.cacheAge =
        some (now - e.timestamp) ∧
      (searchQuery query clientId now up hostOf st).2 = st) ∧
    (300000 ≤ now - e.timestamp →
      (searchQuery query clientId now up hostOf st).1.source ≠ "cache" ∧
      (∀ msg, up = Upstream.fail msg →
        (searchQuery query clientId now up hostOf st).2 = st ∧
        mapGet (searchQuery query clientId now up hostOf st).2.queryCache
          (normalizeKey query) = some e) ∧
      (∀ raws results, up = Upstream.ok raws →
        buildResults (normalizeKey query) hostOf raws = some results →
        (searchQuery query clientId now up hostOf st).2.queryCache =
          cacheStore st.queryCache (normalizeKey query)
            ⟨query, results, now, analyzeSemanticsKeywords query,
              clientId, 0⟩)) := by
  constructor
  · intro hf
    simp only [searchQuery, he, CACHE_TTL]
    rw [if_pos (by omega)]
    exact ⟨rfl, rfl, rfl, rfl⟩
  · intro hstale
    simp only [searchQuery, he, CACHE_TTL]
    rw [if_neg (by omega)]
    refine ⟨?_, ?_, ?_⟩
    · cases up with
      | fail msg => simp
      | ok raws =>
          cases hb : buildResults (normalizeKey query) hostOf raws <;> simp [hb]
    · intro msg hm
      subst hm
      exact ⟨rfl, he⟩
    · intro raws results hr hb
      subst hr
      simp [hb]

/-- Witness for C3 on a one-entry cache stored at time 0: at
`now = 299999` the lookup is a hit returning the stored results from
cache; at `now = 300000` with a failing upstream the lookup is not a
cache hit but the expired entry is still stored. -/
theorem C3_cache_ttl_witness :
    (searchQuery "q" "c" 299999 (Upstream.fail "down") (fun _ => none)
        serverStateEx).1.source = "cache" ∧
    (searchQuery "q" "c" 299999 (Upstream.fail "down") (fun _ => none)
        serverStateEx).2 = serverStateEx ∧
    (searchQuery "q" "c" 300000 (Upstream.fail "down") (fun _ => none)
        serverStateEx).1.source ≠ "cache" ∧
    mapGet (searchQuery "q" "c" 300000 (Upstream.fail "down") (fun _ => none)
        serverStateEx).2.queryCache (normalizeKey "q") = some cacheEntryEx := by
  have hfresh := (C3_cache_ttl "q" "c" 299999 (Upstream.fail "down")
    (fun _ => none) serverStateEx cacheEntryEx (by decide)).1 (by decide)
  have hstale := (C3_cache_ttl "q" "c" 300000 (Upstream.fail "down")
    (fun _ => none) serverStateEx cacheEntryEx (by decide)).2 (by decide)
  exact ⟨hfresh.1, hfresh.2.2.2, hstale.1, (hstale.2.1 "down" rfl).2⟩

/-- C9: when the live path runs (no fresh cache hit) and the upstream
call fails — the fetch throws, the body is invalid or reports
`success:false` (the `Upstream.fail` case), or a result URL fails to
parse (`buildResults` returns `none`) — `searchQuery` returns the
structured `source = "error"` result with an empty result list and
leaves the query cache and the semantic index exactly as they were. -/
theorem C9_error_no_mutation (query clientId : String) (now : Int)
    (hostOf : String → Option String) (st : ServerState)
    (hmiss : isFreshHit st (normalizeKey query) now = false) :
    (∀ msg, searchQuery query clientId now (Upstream.fail msg) hostOf st =
      (⟨query, [], "error", none, some msg, none, now⟩, st)) ∧
    (∀ raws, buildResults (normalizeKey query) hostOf raws = none →
      searchQuery query clientId now (Upstream.ok raws) hostOf st =
      (⟨query, [], "error", none, some "Invalid URL", none, now⟩, st)) := by
  cases hg : mapGet st.queryCache (normalizeKey query) with
  | none =>
      refine ⟨fun msg => ?_, fun raws hb => ?_⟩
      · simp [searchQuery, hg]
      · simp [searchQuery, hg, hb]
  | some e =>
      have hlt : ¬ (now - e.timestamp < CACHE_TTL) := by
        simp only [isFreshHit, hg] at hmiss
        simpa using hmiss
      refine ⟨fun msg => ?_, fun raws hb => ?_⟩
      · simp only [searchQuery, hg]
        rw [if_neg hlt]
      · simp only [searchQuery, hg]
        rw [if_neg hlt]
        simp [hb]

/-- Witness for C9 on the empty server state: both error cases return
the `source = "error"` result and leave the state empty. -/
theorem C9_error_no_mutation_witness :
    searchQuery "q" "c" 5 (Upstream.fail "down") (fun _ => none) ⟨[], []⟩ =
      (⟨"q", [], "error", none, some "down", none, 5⟩, ⟨[], []⟩) ∧
    searchQuery "q" "c" 5 (Upstream.ok [⟨"t", "u", "s"⟩]) (fun _ => none)
        ⟨[], []⟩ =
      (⟨"q", [], "error", none, some "Invalid URL", none, 5⟩, ⟨[], []⟩) := by
  have h := C9_error_no_mutation "q" "c" 5 (fun _ => none) ⟨[], []⟩ (by decide)
  exact ⟨h.1 "down", h.2 [⟨"t", "u", "s"⟩] (by decide)⟩

theorem olderOf_fold_spec {κ : Type} (t : List (κ × CacheEntry))
    (acc : κ × CacheEntry) :
    ∃ p, t.foldl olderOf (some acc) = some p ∧ (p = acc ∨ p ∈ t) ∧
      p.2.timestamp ≤ acc.2.timestamp ∧
      (∀ q ∈ t, p.2.timestamp ≤ q.2.timestamp) := by
  induction t generalizing acc with
  | nil => exact ⟨acc, rfl, Or.inl rfl, le_refl _, by simp⟩
  | cons b t ih =>
      simp only [List.foldl_cons]
      by_cases hb : b.2.timestamp < acc.2.timestamp
      · have hstep : olderOf (some acc) b = some b := by simp [olderOf, hb]
        rw [hstep]
        obtain ⟨p, h1, h2, h3, h4⟩ := ih b
        refine ⟨p, h1, ?_, ?_, ?_⟩
        · rcases h2 with h | h
          · exact Or.inr (by simp [h])
          · exact Or.inr (List.mem_cons_of_mem _ h)
        · exact le_trans h3 (le_of_lt hb)
        · intro q hq
          rcases List.mem_cons.mp hq with h | h
          · exact h ▸ h3
          · exact h4 q h
      · have hstep : olderOf (some acc) b = some acc := by simp [olderOf, hb]
        rw [hstep]
        obtain ⟨p, h1, h2, h3, h4⟩ := ih acc
        refine ⟨p, h1, ?_, h3, ?_⟩
        · rcases h2 with h | h
          · exact Or.inl h
          · exact Or.inr (List.mem_cons_of_mem _ h)
        · intro q hq
          rcases List.mem_cons.mp hq with h | h
          · exact h ▸ le_trans h3 (not_lt.mp hb)
          · exact h4 q h

theorem oldestEntry_spec {κ : Type} (m : List (κ × CacheEntry)) (hm : m ≠ []) :
    ∃ p, oldestEntry m = some p ∧ p ∈ m ∧
      ∀ q ∈ m, p.2.timestamp ≤ q.2.timestamp := by
  cases m with
  | nil => exact absurd rfl hm
  | cons a t =>
      obtain ⟨p, h1, h2, h3, h4⟩ := olderOf_fold_spec t a
      refine ⟨p, ?_, ?_, ?_⟩
      · simpa [oldestEntry, olderOf] using h1
      · rcases h2 with h | h
        · simp [h]
        · exact List.mem_cons_of_mem _ h
      · intro q hq
        rcases List.mem_cons.mp hq with h | h
        · exact h ▸ h3
        · exact h4 q h

theorem cacheStore_evict_spec {κ : Type} [DecidableEq κ]
    (m : List (κ × CacheEntry)) (k : κ) (e : CacheEntry)
    (hcap : (mapSet m k e).length > 1000) :
    ∃ p, oldestEntry (mapSet m k e) = some p ∧ p ∈ mapSet m k e ∧
      (∀ q ∈ mapSet m k e, p.2.timestamp ≤ q.2.timestamp) ∧
      cacheStore m k e =
        (mapSet m k e).eraseP (fun q => decide (q.1 = p.1)) ∧
      (cacheStore m k e).length + 1 = (mapSet m k e).length := by
  have hne : mapSet m k e ≠ [] := by
    intro h0
    rw [h0] at hcap
    simp at hcap
  obtain ⟨p, hold, hmem, hmin⟩ := oldestEntry_spec _ hne
  have hev : cacheStore m k e =
      (mapSet m k e).eraseP (fun q => decide (q.1 = p.1)) := by
    simp only [cacheStore]
    rw [if_pos hcap]
    simp [cacheEvictOldest, hold]
  have hpa : (fun q : κ × CacheEntry => decide (q.1 = p.1)) p = true := by simp
  have hlen := List.length_eraseP_add_one (p := fun q => decide (q.1 = p.1))
    hmem hpa
  exact ⟨p, hold, hmem, hmin, hev, by rw [hev]; exact hlen⟩

theorem cacheStore_length_le {κ : Type} [DecidableEq κ]
    (m : List (κ × CacheEntry)) (k : κ) (e : CacheEntry)
    (h : m.length ≤ 1000) : (cacheStore m k e).length ≤ 1000 := by
  by_cases hcap : (mapSet m k e).length > 1000
  · obtain ⟨p, _, _, _, _, hlen⟩ := cacheStore_evict_spec m k e hcap
    have hm1 : (mapSet m k e).length ≤ m.length + 1 := by
      rw [length_mapSet]
      split <;> omega
    omega
  · simp only [cacheStore]
    rw [if_neg hcap]
    omega

theorem cacheStore_fold_le {κ : Type} [DecidableEq κ]
    (ops : List (κ × CacheEntry)) (m : List (κ × CacheEntry))
    (h : m.length ≤ 1000) :
    ((ops.foldl (fun acc p => cacheStore acc p.1 p.2) m).length ≤ 1000) := by
  induction ops generalizing m with
  | nil => simpa using h
  | cons o os ih => exact ih _ (cacheStore_length_le _ _ _ h)

/-- C4: starting from the empty cache, no sequence of stores ever leaves
more than 1000 entries; whenever an insertion makes the entry count
exceed 1000, exactly one entry is evicted, namely (the first-inserted
among) those with the smallest stored creation timestamp. -/
theorem C4_cache_capacity {κ : Type} [DecidableEq κ] :
    (∀ ops : List (κ × CacheEntry),
      ((ops.foldl (fun acc p => cacheStore acc p.1 p.2)
        ([] : List (κ × CacheEntry))).length ≤ 1000)) ∧
    (∀ (m : List (κ × CacheEntry)) (k : κ) (e : CacheEntry),
      (mapSet m k e).length > 1000 →
      ∃ p, oldestEntry (mapSet m k e) = some p ∧ p ∈ mapSet m k e ∧
        (∀ q ∈ mapSet m k e, p.2.timestamp ≤ q.2.timestamp) ∧
        cacheStore m k e =
          (mapSet m k e).eraseP (fun q => decide (q.1 = p.1)) ∧
        (cacheStore m k e).length + 1 = (mapSet m k e).length) :=
  ⟨fun ops => cacheStore_fold_le ops [] (by simp),
    fun m k e hcap => cacheStore_evict_spec m k e hcap⟩

set_option maxRecDepth 40000 in
/-- Witness for C4: inserting key 1000 into the full 1000-entry cache
makes 1001 entries, and the store evicts exactly one entry of minimal
timestamp. -/
theorem C4_cache_capacity_witness :
    (mapSet bigCacheEx 1000 (natEntry 1000)).length > 1000 ∧
    ∃ p, oldestEntry (mapSet bigCacheEx 1000 (natEntry 1000)) = some p ∧
      p ∈ mapSet bigCacheEx 1000 (natEntry 1000) ∧
      (∀ q ∈ mapSet bigCacheEx 1000 (natEntry 1000),
        p.2.timestamp ≤ q.2.timestamp) ∧
      cacheStore bigCacheEx 1000 (natEntry 1000) =
        (mapSet bigCacheEx 1000 (natEntry 1000)).eraseP
          (fun q => decide (q.1 = p.1)) ∧
      (cacheStore bigCacheEx 1000 (natEntry 1000)).length + 1 =
        (mapSet bigCacheEx 1000 (natEntry 1000)).length := by
  have hhas : mapHas bigCacheEx 1000 = false := by decide
  have hcap : (mapSet bigCacheEx 1000 (natEntry 1000)).length > 1000 := by
    rw [length_mapSet, hhas]
    simp [bigCacheEx]
  exact ⟨hcap, C4_cache_capacity.2 bigCacheEx 1000 (natEntry 1000) hcap⟩

theorem notifications_filter (L : List Nat) (lid : Nat) (c : Chunk)
    (hl : lid ∉ L) :
    ((L ++ [lid]).map (fun l => (l, c))).filter
      (fun p => decide (p.1 = lid)) = [(lid, c)] := by
  induction L with
  | nil => simp
  | cons a t ih =>
      have ha : ¬ (a = lid) := fun h => hl (by simp [h])
      have ht : lid ∉ t := fun h => hl (List.mem_cons_of_mem _ h)
      simp [ha, ih ht]
      intro b hb h
      exact ht (h ▸ hb)

theorem emitAll_received (sid : String) (lid : Nat)
    (ds : List (String × String × Int)) :
    ∀ (streams : List (String × StreamSt)) (s : StreamSt),
      mapGet streams sid = some s →
      (∀ c : Chunk, ((s.listeners.map (fun l => (l, c))).filter
        (fun p => decide (p.1 = lid))) = [(lid, c)]) →
      (((emitAll streams sid ds).2.filter
          (fun p => decide (p.1 = lid))).map Prod.snd =
        ds.map (fun d => (⟨d.2.1, d.1, d.2.2⟩ : Chunk)) ∧
       mapGet (emitAll streams sid ds).1 sid =
        some { s with chunks :=
          s.chunks ++ ds.map (fun d => (⟨d.2.1, d.1, d.2.2⟩ : Chunk)) }) := by
  induction ds with
  | nil =>
      intro streams s hs _
      constructor
      · simp [emitAll]
      · simpa [emitAll] using hs
  | cons d ds ih =>
      intro streams s hs hL
      have hstep : streamChunk streams sid d.1 d.2.1 d.2.2 =
          (mapSet streams sid
              { s with chunks := s.chunks ++ [⟨d.2.1, d.1, d.2.2⟩] }, true,
            s.listeners.map (fun l => (l, (⟨d.2.1, d.1, d.2.2⟩ : Chunk)))) := by
        simp [streamChunk, hs]
      have hs' : mapGet (mapSet streams sid
          { s with chunks := s.chunks ++ [⟨d.2.1, d.1, d.2.2⟩] }) sid =
          some { s with chunks := s.chunks ++ [⟨d.2.1, d.1, d.2.2⟩] } :=
        mapGet_mapSet_self _ _ _
      have ihh := ih _ _ hs' (by simpa using hL)
      constructor
      · simp only [emitAll, hstep, List.filter_append, List.map_append,
          hL (⟨d.2.1, d.1, d.2.2⟩ : Chunk), ihh.1]
        simp
      · have h2 := ihh.2
        simp only [emitAll, hstep]
        rw [h2]
        simp

/-- C6: a subscriber attached when the stream already holds buffered
chunks first receives exactly those chunks, in original order, and then
each subsequently emitted chunk exactly once, in emission order — the
full delivery equals the buffered prefix followed by the emitted chunks,
with nothing skipped, duplicated or reordered. -/
theorem C6_replay_then_live (streams : List (String × StreamSt))
    (sid : String) (s : StreamSt) (lid : Nat)
    (ds : List (String × String × Int))
    (hs : mapGet streams sid = some s) (hl : lid ∉ s.listeners) :
    (handleSSE streams sid lid).2 = s.chunks ∧
    (handleSSE streams sid lid).2 ++
      (((emitAll (handleSSE streams sid lid).1 sid ds).2.filter
          (fun p => decide (p.1 = lid))).map Prod.snd) =
      s.chunks ++ ds.map (fun d => (⟨d.2.1, d.1, d.2.2⟩ : Chunk)) := by
  have hsse : handleSSE streams sid lid =
      (mapSet streams sid { s with listeners := s.listeners ++ [lid] },
        s.chunks) := by
    simp [handleSSE, subscribeStream, hs]
  have hs1 : mapGet (mapSet streams sid
      { s with listeners := s.listeners ++ [lid] }) sid =
      some { s with listeners := s.listeners ++ [lid] } :=
    mapGet_mapSet_self _ _ _
  have hrec := emitAll_received sid lid ds _ _ hs1
    (fun c => notifications_filter s.listeners lid c hl)
  rw [hsse]
  exact ⟨rfl, by rw [hrec.1]⟩

/-- Witness for C6: on a stream with two buffered chunks and no previous
listeners, subscriber 7 receives the two buffered chunks immediately and
then the two subsequently emitted chunks, in order. -/
theorem C6_replay_then_live_witness :
    (handleSSE bufferedStreamsEx "s" 7).2 =
      [⟨"data", "d0", 1⟩, ⟨"data", "d1", 2⟩] ∧
    (handleSSE bufferedStreamsEx "s" 7).2 ++
      (((emitAll (handleSSE bufferedStreamsEx "s" 7).1 "s"
          [("d2", "result", 3), ("done", "complete", 4)]).2.filter
          (fun p => decide (p.1 = 7))).map Prod.snd) =
      [⟨"data", "d0", 1⟩, ⟨"data", "d1", 2⟩,
        ⟨"result", "d2", 3⟩, ⟨"complete", "done", 4⟩] := by
  have h := C6_replay_then_live bufferedStreamsEx "s"
    ⟨"c", "q", 0, [⟨"data", "d0", 1⟩, ⟨"data", "d1", 2⟩], "active", [],
      none, none⟩
    7 [("d2", "result", 3), ("done", "complete", 4)] (by decide) (by decide)
  exact ⟨h.1, h.2⟩

end BubbleAI
